import Mathlib

/-!
Verification of the weighted request governor (RateLimiter) and the trade
ledger (TradeHistoryManager) of the trading bot, against their design
specification.

The embedding follows the Python source:
  - src/trading-bot/src/binance/rate_limiter.py
  - src/trading-bot/src/database/trade_history_manager.py
with its collaborators
  - src/trading-bot/src/database/postgres_manager.py  (each execute commits
    its own statement; no cross-statement transaction in the ledger paths)
  - src/trading-bot/src/database/redis_manager.py     (set returns False on
    operational errors but raises RedisError when not connected; get returns
    None on operational errors; delete returns 0 on operational errors)

Timestamps are modelled as exact integers (seconds), money/price values as
rationals, so every computation of the source is reproduced exactly.
-/

namespace TradeBot

/-! ## RateLimiter (rate_limiter.py)

State of one `RateLimiter` instance.  `requests` is the deque of
`(timestamp, weight)` pairs, oldest first; `totalWeight` is the running
window total; the four `stats` fields are the `_stats` dict. -/

structure RateLimiter where
  maxWeight : Int
  windowSeconds : Int
  strictMode : Bool
  requests : List (Int × Int)
  totalWeight : Int
  statsTotalRequests : Nat
  statsTotalWeightUsed : Int
  statsWaits : Nat
  statsRejected : Nat
deriving DecidableEq

/-- Embeds `RateLimiter.__init__`. -/
def initLimiter (maxWeightPerMinute windowSeconds : Int) (strictMode : Bool) :
    RateLimiter :=
  { maxWeight := maxWeightPerMinute
    windowSeconds := windowSeconds
    strictMode := strictMode
    requests := []
    totalWeight := 0
    statsTotalRequests := 0
    statsTotalWeightUsed := 0
    statsWaits := 0
    statsRejected := 0 }

/-- Sum of the weights of a record list. -/
def sumW (l : List (Int × Int)) : Int := (l.map Prod.snd).sum

/-- The `while self.requests and self.requests[0][0] < cutoff_time` loop of
`_cleanup_old_requests`: pops old head records, returning the remaining
records and the total weight removed. -/
def purgeLoop (cutoff : Int) : List (Int × Int) → List (Int × Int) × Int
  | [] => ([], 0)
  | (t, w) :: rest =>
    if t < cutoff then
      let r := purgeLoop cutoff rest
      (r.1, w + r.2)
    else ((t, w) :: rest, 0)

/-- Embeds `RateLimiter._cleanup_old_requests`, called at time `now`. -/
def cleanupOldRequests (rl : RateLimiter) (now : Int) : RateLimiter :=
  let r := purgeLoop (now - rl.windowSeconds) rl.requests
  { rl with requests := r.1, totalWeight := rl.totalWeight - r.2 }

/-- The `for timestamp, weight in self.requests` loop of
`_calculate_wait_time`: accumulates weight and returns the timestamp of the
record that brings the accumulated weight to `needed`, if any. -/
def findCoverTs (needed : Int) : Int → List (Int × Int) → Option Int
  | _, [] => none
  | acc, (t, w) :: rest =>
    if acc + w ≥ needed then some t else findCoverTs needed (acc + w) rest

/-- Timestamp of the newest record (`self.requests[-1][0]`); `0` for an empty
deque (the source only evaluates it on a non-empty deque). -/
def lastTs (l : List (Int × Int)) : Int := ((l.getLast?).map Prod.fst).getD 0

/-- Embeds `RateLimiter._calculate_wait_time` at time `now`. -/
def calculateWaitTime (rl : RateLimiter) (now : Int) (newWeight : Int) : Int :=
  if rl.requests = [] then 0
  else
    let needed := rl.totalWeight + newWeight - rl.maxWeight
    if needed ≤ 0 then 0
    else
      let oldest :=
        match findCoverTs needed 0 rl.requests with
        | some t => t
        | none => lastTs rl.requests
      max 0 (oldest + rl.windowSeconds - now)

/-- Outcome of `wait_if_needed`: a returned wait value, or the strict-mode
`RateLimitError`. -/
inductive CheckOutcome where
  | ok (wait : Int)
  | rejected
deriving DecidableEq

/-- Embeds `RateLimiter.wait_if_needed` at time `now`, returning the outcome and the
instance state after the call. -/
def wait_if_needed (rl : RateLimiter) (now : Int) (weight : Int) :
    CheckOutcome × RateLimiter :=
  let rl1 := cleanupOldRequests rl now
  if rl1.totalWeight + weight > rl1.maxWeight then
    if rl1.strictMode then
      (.rejected, { rl1 with statsRejected := rl1.statsRejected + 1 })
    else
      let wt := calculateWaitTime rl1 now weight
      if wt > 0 then (.ok wt, { rl1 with statsWaits := rl1.statsWaits + 1 })
      else (.ok 0, rl1)
  else (.ok 0, rl1)

/-- Embeds `RateLimiter.add_request` at time `now`. -/
def add_request (rl : RateLimiter) (now : Int) (weight : Int) : RateLimiter :=
  let rl1 :=
    { rl with
      requests := rl.requests ++ [(now, weight)]
      totalWeight := rl.totalWeight + weight
      statsTotalRequests := rl.statsTotalRequests + 1
      statsTotalWeightUsed := rl.statsTotalWeightUsed + weight }
  cleanupOldRequests rl1 now

/-- The dict returned by `get_current_usage`. -/
structure UsageSnapshot where
  current_weight : Int
  max_weight : Int
  usage_percentage : Rat
  requests_in_window : Nat
  available_weight : Int
deriving DecidableEq

/-- Embeds `RateLimiter.get_current_usage` at time `now` (snapshot and the state
after the internal cleanup). -/
def get_current_usage (rl : RateLimiter) (now : Int) :
    UsageSnapshot × RateLimiter :=
  let rl1 := cleanupOldRequests rl now
  ({ current_weight := rl1.totalWeight
     max_weight := rl1.maxWeight
     usage_percentage := (rl1.totalWeight : Rat) / (rl1.maxWeight : Rat) * 100
     requests_in_window := rl1.requests.length
     available_weight := rl1.maxWeight - rl1.totalWeight }, rl1)

/-- The merged dict `{**self._stats, **self.get_current_usage()}` that
`get_statistics` is meant to return. -/
structure FullStats where
  total_requests : Nat
  total_weight_used : Int
  waits : Nat
  rejected : Nat
  usage : UsageSnapshot
deriving DecidableEq

/-- Embeds `threading.Lock.acquire` as seen by a single thread: on a non-reentrant
lock the acquire succeeds when the lock is free and blocks forever (no
result) when this very thread already holds it and nobody else can release
it. -/
def tryAcquire (lockHeld : Bool) : Option Unit :=
  if lockHeld then none else some ()

/-- Embeds `RateLimiter.get_current_usage` including its `with self._lock:` entry,
called while the instance lock is (`lockHeld = true`) or is not already held
by the caller.  `none` means the call blocks forever. -/
def get_current_usage_sync (rl : RateLimiter) (now : Int) (lockHeld : Bool) :
    Option (UsageSnapshot × RateLimiter) :=
  match tryAcquire lockHeld with
  | none => none
  | some _ => some (get_current_usage rl now)

/-- Embeds `RateLimiter.get_statistics` at time `now`, including lock behaviour:
it enters `with self._lock:` and then, still holding the lock, calls
`self.get_current_usage()`, which tries to take the same lock again.
`none` means the call blocks forever. -/
def get_statistics (rl : RateLimiter) (now : Int) (lockHeld : Bool) :
    Option FullStats :=
  match tryAcquire lockHeld with
  | none => none
  | some _ =>
    match get_current_usage_sync rl now true with
    | none => none
    | some (u, _) =>
      some
        { total_requests := rl.statsTotalRequests
          total_weight_used := rl.statsTotalWeightUsed
          waits := rl.statsWaits
          rejected := rl.statsRejected
          usage := u }

/-- Replay a list of `add_request` calls, each given as `(now, weight)`. -/
def runRecords (rl : RateLimiter) : List (Int × Int) → RateLimiter
  | [] => rl
  | (t, w) :: rest => runRecords (add_request rl t w) rest

/-- Record timestamps are in nondecreasing order (they come from a monotone
wall clock). -/
def tsSorted (l : List (Int × Int)) : Prop :=
  l.Pairwise (fun a b => a.1 ≤ b.1)

instance (l : List (Int × Int)) : Decidable (tsSorted l) := by
  unfold tsSorted; infer_instance

/-- The `timestamp < cutoff` test of the cleanup loop. -/
def oldP (cutoff : Int) (r : Int × Int) : Bool := r.1 < cutoff

theorem sumW_nil : sumW [] = 0 := rfl

theorem sumW_cons (x : Int × Int) (l : List (Int × Int)) :
    sumW (x :: l) = x.2 + sumW l := by
  simp [sumW]

theorem sumW_append (l₁ l₂ : List (Int × Int)) :
    sumW (l₁ ++ l₂) = sumW l₁ + sumW l₂ := by
  simp [sumW]

theorem sumW_nonneg (l : List (Int × Int)) (h : ∀ r ∈ l, 0 ≤ r.2) :
    0 ≤ sumW l := by
  induction l with
  | nil => simp [sumW]
  | cons x rest ih =>
    rw [sumW_cons]
    have hx := h x (by simp)
    have hr := ih (fun r hr => h r (by simp [hr]))
    omega

/-- The cleanup loop removes exactly the longest old prefix and returns the
weight it removed. -/
theorem purgeLoop_eq (cutoff : Int) (l : List (Int × Int)) :
    purgeLoop cutoff l =
      (l.dropWhile (oldP cutoff), sumW (l.takeWhile (oldP cutoff))) := by
  induction l with
  | nil => simp [purgeLoop, sumW]
  | cons x rest ih =>
    obtain ⟨t, w⟩ := x
    by_cases h : t < cutoff
    · simp [purgeLoop, h, ih, List.dropWhile_cons, List.takeWhile_cons, oldP,
        sumW_cons]
    · simp [purgeLoop, h, List.dropWhile_cons, List.takeWhile_cons, oldP,
        sumW_nil]

theorem cleanup_requests (rl : RateLimiter) (now : Int) :
    (cleanupOldRequests rl now).requests =
      rl.requests.dropWhile (oldP (now - rl.windowSeconds)) := by
  simp [cleanupOldRequests, purgeLoop_eq]

theorem cleanup_totalWeight (rl : RateLimiter) (now : Int)
    (h : rl.totalWeight = sumW rl.requests) :
    (cleanupOldRequests rl now).totalWeight =
      sumW ((cleanupOldRequests rl now).requests) := by
  have hsplit :
      rl.requests.takeWhile (oldP (now - rl.windowSeconds)) ++
        rl.requests.dropWhile (oldP (now - rl.windowSeconds)) = rl.requests :=
    List.takeWhile_append_dropWhile _ _
  have hsum := sumW_append
    (rl.requests.takeWhile (oldP (now - rl.windowSeconds)))
    (rl.requests.dropWhile (oldP (now - rl.windowSeconds)))
  rw [hsplit] at hsum
  simp only [cleanupOldRequests, purgeLoop_eq, cleanup_requests]
  omega

theorem cleanup_maxWeight (rl : RateLimiter) (now : Int) :
    (cleanupOldRequests rl now).maxWeight = rl.maxWeight := rfl

theorem cleanup_windowSeconds (rl : RateLimiter) (now : Int) :
    (cleanupOldRequests rl now).windowSeconds = rl.windowSeconds := rfl

theorem cleanup_strictMode (rl : RateLimiter) (now : Int) :
    (cleanupOldRequests rl now).strictMode = rl.strictMode := rfl

theorem tsSorted_dropWhile (l : List (Int × Int)) (p : Int × Int → Bool)
    (h : tsSorted l) : tsSorted (l.dropWhile p) :=
  h.sublist (List.dropWhile_sublist p)

theorem lastTs_mem (l : List (Int × Int)) (h : l ≠ []) :
    ∃ r ∈ l, r.1 = lastTs l := by
  refine ⟨l.getLast h, List.getLast_mem h, ?_⟩
  simp [lastTs, List.getLast?_eq_getLast l h]

theorem lastTs_cons_cons (x y : Int × Int) (t : List (Int × Int)) :
    lastTs (x :: y :: t) = lastTs (y :: t) := by
  simp [lastTs]

theorem le_lastTs : ∀ (l : List (Int × Int)), tsSorted l →
    ∀ r ∈ l, r.1 ≤ lastTs l
  | [], _, r, hr => by simp at hr
  | [x], _, r, hr => by
      simp at hr; subst hr; simp [lastTs]
  | x :: y :: t, h, r, hr => by
      have h1 : tsSorted (y :: t) := (List.pairwise_cons.mp h).2
      have hlast := lastTs_cons_cons x y t
      rcases List.mem_cons.mp hr with hx | hmem
      · subst hx
        obtain ⟨s, hs, hts⟩ := lastTs_mem (y :: t) (by simp)
        have := (List.pairwise_cons.mp h).1 s hs
        omega
      · have := le_lastTs (y :: t) h1 r hmem
        omega

theorem findCoverTs_cons (needed acc t w : Int) (rest : List (Int × Int)) :
    findCoverTs needed acc ((t, w) :: rest) =
      if acc + w ≥ needed then some t
      else findCoverTs needed (acc + w) rest := rfl

theorem findCoverTs_mem (needed : Int) :
    ∀ (l : List (Int × Int)) (acc t : Int),
      findCoverTs needed acc l = some t → t ∈ l.map Prod.fst := by
  intro l
  induction l with
  | nil => intro acc t h; simp [findCoverTs] at h
  | cons x rest ih =>
    obtain ⟨tx, wx⟩ := x
    intro acc t h
    rw [findCoverTs_cons] at h
    by_cases hc : acc + wx ≥ needed
    · rw [if_pos hc] at h
      injection h with h
      simp [h]
    · rw [if_neg hc] at h
      simp only [List.map_cons, List.mem_cons]
      exact Or.inr (ih _ t h)

/-- Soundness of the wait-walk: a found timestamp is the timestamp of a
record whose prefix covers `needed`. -/
theorem findCoverTs_sound (needed : Int) :
    ∀ (l : List (Int × Int)) (acc t : Int),
      findCoverTs needed acc l = some t →
      ∃ p wt q, l = p ++ (t, wt) :: q ∧ acc + sumW p + wt ≥ needed := by
  intro l
  induction l with
  | nil => intro acc t h; simp [findCoverTs] at h
  | cons x rest ih =>
    obtain ⟨tx, wx⟩ := x
    intro acc t h
    rw [findCoverTs_cons] at h
    by_cases hc : acc + wx ≥ needed
    · rw [if_pos hc] at h
      injection h with h
      subst h
      exact ⟨[], wx, rest, rfl, by rw [sumW_nil]; omega⟩
    · rw [if_neg hc] at h
      obtain ⟨p, wt, q, hl, hsum⟩ := ih (acc + wx) t h
      exact ⟨(tx, wx) :: p, wt, q, by simp [hl], by rw [sumW_cons]; omega⟩

/-- Completeness of the wait-walk: if some record `(t, wt)` has a covering
prefix, the walk stops at it or at an earlier record. -/
theorem findCoverTs_complete (needed t wt : Int) :
    ∀ (s q : List (Int × Int)) (acc : Int),
      acc + sumW s + wt ≥ needed →
      ∃ t₂, findCoverTs needed acc (s ++ (t, wt) :: q) = some t₂ ∧
        (t₂ ∈ s.map Prod.fst ∨ t₂ = t) := by
  intro s
  induction s with
  | nil =>
    intro q acc hge
    rw [sumW_nil] at hge
    refine ⟨t, ?_, Or.inr rfl⟩
    rw [List.nil_append, findCoverTs_cons, if_pos (by omega)]
  | cons x s' ih =>
    obtain ⟨tx, wx⟩ := x
    intro q acc hge
    rw [List.cons_append, findCoverTs_cons]
    by_cases hc : acc + wx ≥ needed
    · exact ⟨tx, by rw [if_pos hc], Or.inl (by simp)⟩
    · rw [sumW_cons] at hge
      obtain ⟨t₂, hfind, hmem⟩ := ih q (acc + wx) (by omega)
      refine ⟨t₂, ?_, ?_⟩
      · rw [if_neg hc]; exact hfind
      · rcases hmem with hm | hm
        · exact Or.inl (by simp [hm])
        · exact Or.inr hm

theorem findCoverTs_none (needed : Int) :
    ∀ (l : List (Int × Int)) (acc : Int), l ≠ [] →
      findCoverTs needed acc l = none → acc + sumW l < needed := by
  intro l
  induction l with
  | nil => intro acc hne _; exact absurd rfl hne
  | cons x rest ih =>
    obtain ⟨tx, wx⟩ := x
    intro acc _ h
    rw [findCoverTs_cons] at h
    by_cases hc : acc + wx ≥ needed
    · rw [if_pos hc] at h; exact absurd h (by simp)
    · rw [if_neg hc] at h
      rw [sumW_cons]
      cases rest with
      | nil => rw [sumW_nil]; omega
      | cons y t =>
        have := ih (acc + wx) (by simp) h
        omega

/-- Splitting `takeWhile`/`dropWhile` around an element failing the
predicate: the removed part is a prefix of what precedes that element. -/
theorem dropWhile_append_mid (pr : Int × Int → Bool) (x : Int × Int)
    (hx : pr x = false) :
    ∀ (p q : List (Int × Int)),
      ∃ s, p = (p ++ x :: q).takeWhile pr ++ s ∧
        (p ++ x :: q).dropWhile pr = s ++ x :: q := by
  intro p
  induction p with
  | nil =>
    intro q
    exact ⟨[], by simp [List.takeWhile_cons, hx], by simp [List.dropWhile_cons, hx]⟩
  | cons y p' ih =>
    intro q
    by_cases hy : pr y
    · obtain ⟨s, hs1, hs2⟩ := ih q
      refine ⟨s, ?_, ?_⟩
      · simp only [List.cons_append, List.takeWhile_cons, hy, if_true]
        simpa using congrArg (List.cons y) hs1
      · simpa [List.dropWhile_cons, hy] using hs2
    · refine ⟨y :: p', ?_, ?_⟩
      · simp [List.takeWhile_cons, hy]
      · simp [List.dropWhile_cons, hy]

theorem dropWhile_eq_filter_of_sorted (c : Int) :
    ∀ l : List (Int × Int), tsSorted l →
      l.dropWhile (oldP c) = l.filter (fun r => c ≤ r.1) := by
  intro l
  induction l with
  | nil => intro _; rfl
  | cons x rest ih =>
    intro h
    obtain ⟨hx, hrest⟩ := List.pairwise_cons.mp h
    rw [List.dropWhile_cons, List.filter_cons]
    by_cases hc : x.1 < c
    · rw [if_pos (by simp [oldP, hc]), if_neg (by simp; omega)]
      exact ih hrest
    · rw [if_neg (by simp [oldP, hc]), if_pos (by simp; omega)]
      congr 1
      symm
      exact List.filter_eq_self.mpr (fun r hr => by
        have := hx r hr
        simp only [decide_eq_true_eq]
        omega)

theorem calculateWaitTime_def (rl : RateLimiter) (now w : Int) :
    calculateWaitTime rl now w =
      if rl.requests = [] then 0
      else if rl.totalWeight + w - rl.maxWeight ≤ 0 then 0
      else
        max 0
          ((match findCoverTs (rl.totalWeight + w - rl.maxWeight) 0
              rl.requests with
            | some t => t
            | none => lastTs rl.requests) + rl.windowSeconds - now) := rfl

theorem calculateWaitTime_nonneg (rl : RateLimiter) (now w : Int) :
    0 ≤ calculateWaitTime rl now w := by
  rw [calculateWaitTime_def]
  split_ifs <;> simp [le_max_left]

/-- Core convergence fact: if the governor just computed a positive wait for
`w` at time `now`, then recomputing the wait on the purged state at time
`now + wait` yields `0`. -/
theorem calculateWaitTime_after_wait (rl : RateLimiter) (now w : Int)
    (hsort : tsSorted rl.requests)
    (htot : rl.totalWeight = sumW rl.requests)
    (hpos : 0 < calculateWaitTime rl now w) :
    calculateWaitTime (cleanupOldRequests rl (now + calculateWaitTime rl now w))
      (now + calculateWaitTime rl now w) w = 0 := by
  rw [calculateWaitTime_def] at hpos
  by_cases hne : rl.requests = []
  · rw [if_pos hne] at hpos; omega
  rw [if_neg hne] at hpos
  by_cases hneed : rl.totalWeight + w - rl.maxWeight ≤ 0
  · rw [if_pos hneed] at hpos; omega
  rw [if_neg hneed] at hpos
  set needed := rl.totalWeight + w - rl.maxWeight with hneeddef
  set oldest :=
    (match findCoverTs needed 0 rl.requests with
     | some t => t
     | none => lastTs rl.requests) with holdest
  have hwt : calculateWaitTime rl now w = oldest + rl.windowSeconds - now := by
    rw [calculateWaitTime_def, if_neg hne, if_neg hneed, ← hneeddef, ← holdest]
    omega
  set wt := calculateWaitTime rl now w with hwtdef
  set rl2 := cleanupOldRequests rl (now + wt) with hrl2
  have hcut : now + wt - rl.windowSeconds = oldest := by omega
  have hreq2 : rl2.requests = rl.requests.dropWhile (oldP oldest) := by
    rw [hrl2, cleanup_requests, hcut]
  have htot2 : rl2.totalWeight = sumW rl2.requests :=
    cleanup_totalWeight rl (now + wt) htot
  have hmax2 : rl2.maxWeight = rl.maxWeight := rfl
  have hwin2 : rl2.windowSeconds = rl.windowSeconds := rfl
  have hsort2 : tsSorted rl2.requests := by
    rw [hreq2]; exact tsSorted_dropWhile _ _ hsort
  -- the split of the old record list around the purge boundary
  have hsplit := List.takeWhile_append_dropWhile (oldP oldest) rl.requests
  have hsumsplit : sumW (rl.requests.takeWhile (oldP oldest)) +
      sumW (rl.requests.dropWhile (oldP oldest)) = sumW rl.requests := by
    rw [← sumW_append, hsplit]
  rw [calculateWaitTime_def]
  by_cases hne2 : rl2.requests = []
  · rw [if_pos hne2]
  rw [if_neg hne2]
  by_cases hneed2 : rl2.totalWeight + w - rl2.maxWeight ≤ 0
  · rw [if_pos hneed2]
  rw [if_neg hneed2]
  set needed2 := rl2.totalWeight + w - rl2.maxWeight with hneed2def
  have hneedrel : needed2 = needed - sumW (rl.requests.takeWhile (oldP oldest)) := by
    rw [hneed2def, hneeddef, hmax2, htot2, hreq2, htot]
    omega
  -- it suffices to show the new target timestamp is at most `oldest`
  suffices hle :
      (match findCoverTs needed2 0 rl2.requests with
        | some t => t
        | none => lastTs rl2.requests) ≤ oldest by
    rw [hwin2]
    omega
  rcases hfind : findCoverTs needed 0 rl.requests with _ | t
  · -- fallback case: `oldest` is the newest timestamp
    have holdlast : oldest = lastTs rl.requests := by
      rw [holdest, hfind]
    have hlt := findCoverTs_none needed rl.requests 0 hne hfind
    -- the purge keeps the newest record
    have hne2' : rl.requests.dropWhile (oldP oldest) ≠ [] := by
      intro hempty
      obtain ⟨r, hrmem, hrts⟩ := lastTs_mem rl.requests hne
      have : r ∈ rl.requests.takeWhile (oldP oldest) := by
        have := hsplit
        rw [hempty, List.append_nil] at this
        rw [← this] at hrmem
        exact hrmem
      have := List.mem_takeWhile_imp this
      simp only [oldP, decide_eq_true_eq] at this
      omega
    rcases hfind2 : findCoverTs needed2 0 rl2.requests with _ | t2
    · -- still not coverable: fall back to the (unchanged) newest timestamp
      have hsame : lastTs rl2.requests = lastTs rl.requests := by
        rw [hreq2]
        conv_rhs => rw [← hsplit]
        simp only [lastTs]
        rw [List.getLast?_append_of_ne_nil _ hne2']
      show lastTs rl2.requests ≤ oldest
      omega
    · -- covered by some record: every remaining record is at most the newest
      have hmem := findCoverTs_mem needed2 rl2.requests 0 t2 hfind2
      obtain ⟨r, hrmem, hrts⟩ := List.mem_map.mp hmem
      have hrin : r ∈ rl.requests := by
        rw [hreq2] at hrmem
        exact (List.dropWhile_sublist _).subset hrmem
      have := le_lastTs rl.requests hsort r hrin
      show t2 ≤ oldest
      omega
  · -- walk case: a prefix of records covers the overage
    have holdt : oldest = t := by rw [holdest, hfind]
    subst holdt
    obtain ⟨p, wt0, q, hdecomp, hcover⟩ :=
      findCoverTs_sound needed rl.requests 0 oldest hfind
    have hx : oldP oldest (oldest, wt0) = false := by
      simp [oldP]
    obtain ⟨s, hps, hdw⟩ := dropWhile_append_mid (oldP oldest) (oldest, wt0) hx p q
    rw [← hdecomp] at hdw
    have hreq2' : rl2.requests = s ++ (oldest, wt0) :: q := by
      rw [hreq2, hdw]
    -- weight accounting across the purge
    have hsump : sumW p =
        sumW (rl.requests.takeWhile (oldP oldest)) + sumW s := by
      conv_lhs => rw [hps]
      rw [sumW_append, ← hdecomp]
    have hcov2 : 0 + sumW s + wt0 ≥ needed2 := by
      rw [hneedrel]
      omega
    obtain ⟨t2, hfind2, hmem2⟩ :=
      findCoverTs_complete needed2 oldest wt0 s q 0 hcov2
    rw [hreq2', hfind2]
    show t2 ≤ oldest
    rcases hmem2 with hm | hm
    · -- an even earlier record of the suffix covers: it is ≤ `oldest`
      obtain ⟨r, hrmem, hrts⟩ := List.mem_map.mp hm
      have hsorted2 : tsSorted (s ++ (oldest, wt0) :: q) := by
        rw [← hreq2']; exact hsort2
      have := (List.pairwise_append.mp hsorted2).2.2 r hrmem (oldest, wt0)
        (by simp)
      omega
    · omega

theorem calculateWaitTime_congr (rl rl1 : RateLimiter)
    (h1 : rl.requests = rl1.requests) (h2 : rl.totalWeight = rl1.totalWeight)
    (h3 : rl.maxWeight = rl1.maxWeight)
    (h4 : rl.windowSeconds = rl1.windowSeconds) (now w : Int) :
    calculateWaitTime rl now w = calculateWaitTime rl1 now w := by
  rw [calculateWaitTime_def, calculateWaitTime_def, h1, h2, h3, h4]

theorem wait_if_needed_def (rl : RateLimiter) (now weight : Int) :
    wait_if_needed rl now weight =
      if (cleanupOldRequests rl now).totalWeight + weight >
          (cleanupOldRequests rl now).maxWeight then
        if (cleanupOldRequests rl now).strictMode then
          (.rejected,
           { cleanupOldRequests rl now with
             statsRejected := (cleanupOldRequests rl now).statsRejected + 1 })
        else if calculateWaitTime (cleanupOldRequests rl now) now weight > 0 then
          (.ok (calculateWaitTime (cleanupOldRequests rl now) now weight),
           { cleanupOldRequests rl now with
             statsWaits := (cleanupOldRequests rl now).statsWaits + 1 })
        else (.ok 0, cleanupOldRequests rl now)
      else (.ok 0, cleanupOldRequests rl now) := rfl

/-- The `cleanup` components only depend on the request history, the running
total and the window, not on the statistics counters. -/
theorem cleanup_congr (rl rl1 : RateLimiter)
    (h1 : rl.requests = rl1.requests) (h2 : rl.totalWeight = rl1.totalWeight)
    (h4 : rl.windowSeconds = rl1.windowSeconds) (now : Int) :
    (cleanupOldRequests rl now).requests = (cleanupOldRequests rl1 now).requests ∧
    (cleanupOldRequests rl now).totalWeight =
      (cleanupOldRequests rl1 now).totalWeight := by
  constructor
  · rw [cleanup_requests, cleanup_requests, h1, h4]
  · simp only [cleanupOldRequests, h1, h2, h4]

/-- Invariant tying a governor state reachable through `add_request` calls to
the full history of recorded `(timestamp, weight)` pairs: the live deque is
exactly the in-window suffix of the history at the time `t` of the last
operation. -/
def Tracked (rl : RateLimiter) (hist : List (Int × Int)) (t : Int) : Prop :=
  rl.requests = hist.filter (fun r => t - rl.windowSeconds ≤ r.1) ∧
  rl.totalWeight = sumW rl.requests ∧
  tsSorted hist ∧
  ∀ r ∈ hist, r.1 ≤ t

theorem tracked_init (maxW win : Int) (strict : Bool) (t : Int) :
    Tracked (initLimiter maxW win strict) [] t := by
  refine ⟨rfl, rfl, List.Pairwise.nil, ?_⟩
  intro r hr
  simp at hr

theorem tracked_add (rl : RateLimiter) (hist : List (Int × Int)) (t tn w : Int)
    (h : Tracked rl hist t) (htn : t ≤ tn) :
    Tracked (add_request rl tn w) (hist ++ [(tn, w)]) tn := by
  obtain ⟨hreq, htot, hsort, hle⟩ := h
  have hmemle : ∀ r ∈ hist.filter (fun r => t - rl.windowSeconds ≤ r.1), r.1 ≤ tn :=
    fun r hr => le_trans (hle r (List.mem_of_mem_filter hr)) htn
  have hsortmid : tsSorted (rl.requests ++ [(tn, w)]) := by
    rw [hreq]
    refine List.pairwise_append.mpr ⟨hsort.filter _, List.pairwise_singleton _ _, ?_⟩
    intro a ha b hb
    simp only [List.mem_singleton] at hb
    subst hb
    exact hmemle a ha
  have htotmid :
      rl.totalWeight + w = sumW (rl.requests ++ [(tn, w)]) := by
    rw [sumW_append, htot, sumW_cons, sumW_nil]
    omega
  have hwineq : (add_request rl tn w).windowSeconds = rl.windowSeconds := rfl
  refine ⟨?_, ?_, ?_, ?_⟩
  · show (add_request rl tn w).requests = _
    have hreqmid : (add_request rl tn w).requests =
        (rl.requests ++ [(tn, w)]).dropWhile (oldP (tn - rl.windowSeconds)) := by
      simp only [add_request, cleanup_requests]
    rw [hwineq, hreqmid, dropWhile_eq_filter_of_sorted _ _ hsortmid, hreq]
    simp only [List.filter_append, List.filter_filter]
    congr 1
    refine List.filter_congr (fun a ha => ?_)
    have h1 := hle a ha
    by_cases hcase : tn - rl.windowSeconds ≤ a.1
    · have h2 : t - rl.windowSeconds ≤ a.1 := by omega
      simp [hcase, h2]
    · simp [hcase]
  · exact cleanup_totalWeight _ tn htotmid
  · refine List.pairwise_append.mpr ⟨hsort, List.pairwise_singleton _ _, ?_⟩
    intro a ha b hb
    simp only [List.mem_singleton] at hb
    subst hb
    exact le_trans (hle a ha) htn
  · intro r hr
    rcases List.mem_append.mp hr with hm | hm
    · exact le_trans (hle r hm) htn
    · simp only [List.mem_singleton] at hm
      subst hm
      exact le_refl _

/-- Time of the last replayed call, defaulting to `t`. -/
def lastTimeOf (t : Int) : List (Int × Int) → Int
  | [] => t
  | (tn, _) :: rest => lastTimeOf tn rest

theorem tracked_run : ∀ (ops : List (Int × Int)) (rl : RateLimiter)
    (hist : List (Int × Int)) (t : Int),
    Tracked rl hist t →
    List.Chain' (· ≤ ·) (t :: ops.map Prod.fst) →
    Tracked (runRecords rl ops) (hist ++ ops) (lastTimeOf t ops) := by
  intro ops
  induction ops with
  | nil =>
    intro rl hist t h _
    rw [List.append_nil]
    exact h
  | cons x rest ih =>
    obtain ⟨tn, w⟩ := x
    intro rl hist t h hchain
    simp only [List.map_cons, List.chain'_cons] at hchain
    have h1 := tracked_add rl hist t tn w h hchain.1
    have h2 := ih (add_request rl tn w) (hist ++ [(tn, w)]) tn h1 hchain.2
    rw [List.append_assoc] at h2
    simpa [runRecords, lastTimeOf] using h2

theorem lastTimeOf_le : ∀ (ops : List (Int × Int)) (t now : Int),
    t ≤ now → (∀ r ∈ ops, r.1 ≤ now) → lastTimeOf t ops ≤ now := by
  intro ops
  induction ops with
  | nil => intro t now ht _; simpa [lastTimeOf] using ht
  | cons x rest ih =>
    obtain ⟨tn, w⟩ := x
    intro t now _ hall
    exact ih tn now (hall (tn, w) (by simp)) (fun r hr => hall r (by simp [hr]))

theorem runRecords_windowSeconds : ∀ (ops : List (Int × Int)) (rl : RateLimiter),
    (runRecords rl ops).windowSeconds = rl.windowSeconds := by
  intro ops
  induction ops with
  | nil => intro rl; rfl
  | cons x rest ih =>
    obtain ⟨tn, w⟩ := x
    intro rl
    rw [runRecords, ih]
    rfl

theorem tracked_usage (rl : RateLimiter) (hist : List (Int × Int)) (t now : Int)
    (h : Tracked rl hist t) (hle : t ≤ now) :
    (get_current_usage rl now).1.current_weight =
      sumW (hist.filter (fun r => now - rl.windowSeconds ≤ r.1)) := by
  obtain ⟨hreq, htot, hsort, hall⟩ := h
  have hsortreq : tsSorted rl.requests := by
    rw [hreq]; exact hsort.filter _
  have hcw : (get_current_usage rl now).1.current_weight =
      (cleanupOldRequests rl now).totalWeight := rfl
  rw [hcw, cleanup_totalWeight rl now htot, cleanup_requests,
    dropWhile_eq_filter_of_sorted _ _ hsortreq, hreq, List.filter_filter]
  congr 1
  refine List.filter_congr (fun a ha => ?_)
  have h1 := hall a ha
  by_cases hcase : now - rl.windowSeconds ≤ a.1
  · have h2 : t - rl.windowSeconds ≤ a.1 := by omega
    simp [hcase, h2]
  · simp [hcase]

/-- Concrete governor state used to exercise the wait path: one recorded
request of weight 90 at time 0 against a budget of 100 over a 60s window. -/
def rlWaitEx : RateLimiter := add_request (initLimiter 100 60 false) 0 90

/-- Concrete strict-mode governor state: weight 45 recorded at time 0
against a budget of 50. -/
def rlStrictEx : RateLimiter := add_request (initLimiter 50 60 true) 0 45

/-- C1 (amended): in lenient mode, after purging expired records,
`wait_if_needed` returns `0` whenever `currentWeight + w ≤ maxWeight`;
otherwise it returns the wait computed by the oldest-to-newest walk of
`_calculate_wait_time`, which is nonnegative but can be `0` (so not always
strictly positive); and whenever a strictly positive wait is returned,
calling `wait_if_needed` again exactly that long afterwards returns `0`. -/
theorem check_wait_semantics (rl : RateLimiter) (now w : Int)
    (hstrict : rl.strictMode = false)
    (hsort : tsSorted rl.requests)
    (htot : rl.totalWeight = sumW rl.requests) :
    ((cleanupOldRequests rl now).totalWeight + w ≤ rl.maxWeight →
      wait_if_needed rl now w = (.ok 0, cleanupOldRequests rl now)) ∧
    (rl.maxWeight < (cleanupOldRequests rl now).totalWeight + w →
      (wait_if_needed rl now w).1 =
        .ok (calculateWaitTime (cleanupOldRequests rl now) now w) ∧
      0 ≤ calculateWaitTime (cleanupOldRequests rl now) now w) ∧
    (∀ wt rl1, wait_if_needed rl now w = (.ok wt, rl1) → 0 < wt →
      (wait_if_needed rl1 (now + wt) w).1 = .ok 0) := by
  have hstrictc : (cleanupOldRequests rl now).strictMode = false := by
    rw [cleanup_strictMode]; exact hstrict
  have hsortc : tsSorted (cleanupOldRequests rl now).requests := by
    rw [cleanup_requests]; exact tsSorted_dropWhile _ _ hsort
  have htotc : (cleanupOldRequests rl now).totalWeight =
      sumW (cleanupOldRequests rl now).requests :=
    cleanup_totalWeight rl now htot
  refine ⟨?_, ?_, ?_⟩
  · intro h
    have hcond : ¬ ((cleanupOldRequests rl now).totalWeight + w >
        (cleanupOldRequests rl now).maxWeight) := by
      rw [cleanup_maxWeight]; omega
    rw [wait_if_needed_def, if_neg hcond]
  · intro h
    have hcond : (cleanupOldRequests rl now).totalWeight + w >
        (cleanupOldRequests rl now).maxWeight := by
      rw [cleanup_maxWeight]; omega
    refine ⟨?_, calculateWaitTime_nonneg _ _ _⟩
    rw [wait_if_needed_def, if_pos hcond, if_neg (by rw [hstrictc]; simp)]
    by_cases hwt : calculateWaitTime (cleanupOldRequests rl now) now w > 0
    · rw [if_pos hwt]
    · rw [if_neg hwt]
      have h0 := calculateWaitTime_nonneg (cleanupOldRequests rl now) now w
      have hz : calculateWaitTime (cleanupOldRequests rl now) now w = 0 := by
        omega
      rw [hz]
  · intro wt rl1 heq hpos
    rw [wait_if_needed_def] at heq
    by_cases hover : (cleanupOldRequests rl now).totalWeight + w >
        (cleanupOldRequests rl now).maxWeight
    · rw [if_pos hover, if_neg (by rw [hstrictc]; simp)] at heq
      by_cases hwt : calculateWaitTime (cleanupOldRequests rl now) now w > 0
      · rw [if_pos hwt, Prod.mk.injEq] at heq
        obtain ⟨h1, h2⟩ := heq
        injection h1 with h1
        have kl := calculateWaitTime_after_wait (cleanupOldRequests rl now)
          now w hsortc htotc hwt
        rw [← h2, ← h1]
        rw [wait_if_needed_def]
        set rlc := cleanupOldRequests rl now with hrlc
        set nowr := now + calculateWaitTime rlc now w with hnowr
        have hcong := cleanup_congr
          { rlc with statsWaits := rlc.statsWaits + 1 } rlc rfl rfl rfl nowr
        by_cases hov2 :
            (cleanupOldRequests { rlc with statsWaits := rlc.statsWaits + 1 }
              nowr).totalWeight + w >
            (cleanupOldRequests { rlc with statsWaits := rlc.statsWaits + 1 }
              nowr).maxWeight
        · rw [if_pos hov2, if_neg (by rw [cleanup_strictMode]; rw [hstrictc]; simp)]
          have hwt2 : calculateWaitTime
              (cleanupOldRequests { rlc with statsWaits := rlc.statsWaits + 1 }
                nowr) nowr w = 0 := by
            rw [calculateWaitTime_congr
              (cleanupOldRequests { rlc with statsWaits := rlc.statsWaits + 1 } nowr)
              (cleanupOldRequests rlc nowr) hcong.1 hcong.2 rfl rfl]
            exact kl
          rw [if_neg (by rw [hwt2]; simp)]
        · rw [if_neg hov2]
      · rw [if_neg hwt, Prod.mk.injEq] at heq
        obtain ⟨h1, _⟩ := heq
        injection h1 with h1
        omega
    · rw [if_neg hover, Prod.mk.injEq] at heq
      obtain ⟨h1, _⟩ := heq
      injection h1 with h1
      omega

/-- C1 counterexample to the claim as stated: with an empty record history
and a request of weight 200 against a budget of 100, the purged current
weight plus the new weight strictly exceeds the budget, yet `wait_if_needed`
returns `0`, not a strictly positive wait. -/
theorem check_over_budget_returns_zero :
    (cleanupOldRequests (initLimiter 100 60 false) 0).totalWeight + 200 >
      (cleanupOldRequests (initLimiter 100 60 false) 0).maxWeight ∧
    wait_if_needed (initLimiter 100 60 false) 0 200 =
      (.ok 0, cleanupOldRequests (initLimiter 100 60 false) 0) := by
  decide

/-- C1 witness: the amended claim applied to the concrete state `rlWaitEx`
(weight 90 recorded at time 0, budget 100, 60s window) checking weight 20 at
time 0. -/
theorem check_wait_semantics_witness :
    rlWaitEx.strictMode = false ∧
    tsSorted rlWaitEx.requests ∧
    rlWaitEx.totalWeight = sumW rlWaitEx.requests ∧
    (((cleanupOldRequests rlWaitEx 0).totalWeight + 20 ≤ rlWaitEx.maxWeight →
      wait_if_needed rlWaitEx 0 20 = (.ok 0, cleanupOldRequests rlWaitEx 0)) ∧
    (rlWaitEx.maxWeight < (cleanupOldRequests rlWaitEx 0).totalWeight + 20 →
      (wait_if_needed rlWaitEx 0 20).1 =
        .ok (calculateWaitTime (cleanupOldRequests rlWaitEx 0) 0 20) ∧
      0 ≤ calculateWaitTime (cleanupOldRequests rlWaitEx 0) 0 20) ∧
    (∀ wt rl1, wait_if_needed rlWaitEx 0 20 = (.ok wt, rl1) → 0 < wt →
      (wait_if_needed rl1 (0 + wt) 20).1 = .ok 0)) :=
  ⟨by decide, by decide, by decide,
   check_wait_semantics rlWaitEx 0 20 (by decide) (by decide) (by decide)⟩

/-- C6: `get_statistics` never returns.  It takes the instance's single
non-reentrant lock and then calls `get_current_usage`, which blocks forever
trying to take the same lock again, so no merged statistics dict is ever
produced, for any state and any time. -/
theorem get_statistics_never_returns (rl : RateLimiter) (now : Int) :
    get_statistics rl now false = none := rfl

/-- C7: in strict mode an over-budget check fails with `RateLimitError` and
increments the rejection counter, and never returns a positive wait; in
lenient mode `wait_if_needed` always returns a (nonnegative) value and never
raises. -/
theorem strict_mode_semantics (rl : RateLimiter) (now w : Int) :
    (rl.strictMode = true →
      (cleanupOldRequests rl now).maxWeight <
        (cleanupOldRequests rl now).totalWeight + w →
      wait_if_needed rl now w =
        (.rejected,
         { cleanupOldRequests rl now with
           statsRejected := (cleanupOldRequests rl now).statsRejected + 1 })) ∧
    (rl.strictMode = true → ∀ wt rl1,
      wait_if_needed rl now w = (.ok wt, rl1) → wt = 0) ∧
    (rl.strictMode = false →
      ∃ wt rl1, wait_if_needed rl now w = (.ok wt, rl1) ∧ 0 ≤ wt) := by
  refine ⟨?_, ?_, ?_⟩
  · intro hs hover
    have hstrictc : (cleanupOldRequests rl now).strictMode = true := by
      rw [cleanup_strictMode]; exact hs
    rw [wait_if_needed_def, if_pos (by omega), if_pos hstrictc]
  · intro hs wt rl1 heq
    have hstrictc : (cleanupOldRequests rl now).strictMode = true := by
      rw [cleanup_strictMode]; exact hs
    rw [wait_if_needed_def] at heq
    by_cases hover : (cleanupOldRequests rl now).totalWeight + w >
        (cleanupOldRequests rl now).maxWeight
    · rw [if_pos hover, if_pos hstrictc, Prod.mk.injEq] at heq
      exact absurd heq.1 (by simp)
    · rw [if_neg hover, Prod.mk.injEq] at heq
      obtain ⟨h1, _⟩ := heq
      injection h1 with h1
      omega
  · intro hs
    have hstrictc : (cleanupOldRequests rl now).strictMode = false := by
      rw [cleanup_strictMode]; exact hs
    rw [wait_if_needed_def]
    by_cases hover : (cleanupOldRequests rl now).totalWeight + w >
        (cleanupOldRequests rl now).maxWeight
    · rw [if_pos hover, if_neg (by rw [hstrictc]; simp)]
      by_cases hwt : calculateWaitTime (cleanupOldRequests rl now) now w > 0
      · rw [if_pos hwt]
        exact ⟨_, _, rfl, calculateWaitTime_nonneg _ _ _⟩
      · rw [if_neg hwt]
        exact ⟨0, _, rfl, le_refl 0⟩
    · rw [if_neg hover]
      exact ⟨0, _, rfl, le_refl 0⟩

/-- C7 witness: the strict limiter `rlStrictEx` (45/50 used) rejects a
check of weight 10 and bumps the rejection counter. -/
theorem strict_mode_semantics_witness :
    rlStrictEx.strictMode = true ∧
    (cleanupOldRequests rlStrictEx 0).maxWeight <
      (cleanupOldRequests rlStrictEx 0).totalWeight + 10 ∧
    wait_if_needed rlStrictEx 0 10 =
      (.rejected,
       { cleanupOldRequests rlStrictEx 0 with
         statsRejected := (cleanupOldRequests rlStrictEx 0).statsRejected + 1 }) :=
  ⟨by decide, by decide,
   (strict_mode_semantics rlStrictEx 0 10).1 (by decide) (by decide)⟩

/-- C5: for every chronological sequence of `add_request` calls with
nonnegative weights, `get_current_usage` reports a current weight equal to
the sum of the recorded weights whose timestamp is within
`windowSeconds` of the query time, and that value is never negative. -/
theorem record_usage_current_weight (maxW win : Int) (strict : Bool)
    (ops : List (Int × Int)) (now : Int)
    (hchron : List.Chain' (· ≤ ·) (ops.map Prod.fst))
    (hbound : ∀ r ∈ ops, r.1 ≤ now)
    (hw : ∀ r ∈ ops, 0 ≤ r.2) :
    (get_current_usage (runRecords (initLimiter maxW win strict) ops)
        now).1.current_weight =
      sumW (ops.filter (fun r => now - win ≤ r.1)) ∧
    0 ≤ (get_current_usage (runRecords (initLimiter maxW win strict) ops)
        now).1.current_weight := by
  set t0 : Int := (match ops with
    | [] => now
    | (tn, _) :: _ => tn) with ht0
  have hchain : List.Chain' (· ≤ ·) (t0 :: ops.map Prod.fst) := by
    cases ops with
    | nil => simp
    | cons x rest =>
      obtain ⟨tn, w⟩ := x
      rw [ht0]
      exact List.chain'_cons.mpr ⟨le_refl tn, hchron⟩
  have ht0le : t0 ≤ now := by
    cases ops with
    | nil => rw [ht0]
    | cons x rest =>
      obtain ⟨tn, w⟩ := x
      rw [ht0]
      exact hbound (tn, w) (by simp)
  have hrun := tracked_run ops (initLimiter maxW win strict) [] t0
    (tracked_init maxW win strict t0) hchain
  rw [List.nil_append] at hrun
  have hlast := lastTimeOf_le ops t0 now ht0le hbound
  have husage := tracked_usage (runRecords (initLimiter maxW win strict) ops)
    ops (lastTimeOf t0 ops) now hrun hlast
  have hwin : (runRecords (initLimiter maxW win strict) ops).windowSeconds =
      win := by
    rw [runRecords_windowSeconds]; rfl
  rw [hwin] at husage
  refine ⟨husage, ?_⟩
  rw [husage]
  exact sumW_nonneg _ (fun r hr => hw r (List.mem_of_mem_filter hr))

/-- C5 witness: two records `(0,5)` and `(3,7)` in a 10s window queried at
time 4: both are in the window, so the current weight is their sum 12, and
it is nonnegative. -/
theorem record_usage_current_weight_witness :
    (get_current_usage (runRecords (initLimiter 100 10 false) [(0, 5), (3, 7)])
        4).1.current_weight =
      sumW ([(0, 5), (3, 7)].filter (fun r => 4 - 10 ≤ r.1)) ∧
    0 ≤ (get_current_usage (runRecords (initLimiter 100 10 false)
        [(0, 5), (3, 7)]) 4).1.current_weight :=
  record_usage_current_weight 100 10 false [(0, 5), (3, 7)] 4
    (by simp) (by decide) (by decide)

/-! ## TradeHistoryManager (trade_history_manager.py)

PostgreSQL tables and the Redis cache are modelled as association lists
keyed by trade id.  Each `PostgresManager.execute` commits its own
statement (`get_cursor` commits per call), so the two INSERTs of
`create_trade` are independent durable writes.  `RedisManager.set` returns
`False` on operational errors but raises `RedisError` when the client is
not connected; `RedisManager.get`/`delete` swallow operational errors. -/

inductive Side where
  | LONG
  | SHORT
deriving DecidableEq

/-- A Python value holding a point in time.  `create_trade` caches
`entry_time.isoformat()` (a string); a trades row read back from PostgreSQL
carries a `datetime` object (the `entry_time` column type is TIMESTAMP and
psycopg2 converts it).  `datetime.fromisoformat` accepts only strings and
raises `TypeError` on a `datetime`. -/
inductive TimeVal where
  | isoStr (t : Int)
  | dt (t : Int)
deriving DecidableEq

def TimeVal.isIso : TimeVal → Bool
  | .isoStr _ => true
  | .dt _ => false

/-- Ledger error conditions, distinguished the way a caller can distinguish
them from the `TradeHistoryError` text: `notFound` carries the
"Trade bulunamadı" message (also when re-wrapped by `close_trade`'s generic
handler, the text is preserved inside the wrapper), `opFailed` is any other
wrapped exception ("Trade oluşturulamadı" / "Trade kapatılamadı" /
"Pozisyon güncellenemedi" without a not-found cause). -/
inductive LedgerErr where
  | notFound
  | opFailed
deriving DecidableEq

/-- Row of the `trades` table. -/
structure TradeRow where
  symbol : String
  side : Side
  entry_price : Rat
  quantity : Rat
  leverage : Int
  entry_time : Int
  stop_loss : Rat
  take_profit : Rat
  rr_ratio : Rat
  risk_amount : Rat
  signal_confidence : Option Rat
  signal_type : Option String
  timeframe : Option String
  notes : Option String
  exit_price : Option Rat
  exit_time : Option Int
  exit_reason : Option String
  duration_seconds : Option Int
  pnl : Option Rat
  pnl_percentage : Option Rat
  fees : Option Rat
  net_pnl : Option Rat
  actual_rr : Option Rat
deriving DecidableEq

/-- Row of the `positions` table. -/
structure PositionRow where
  symbol : String
  side : Side
  entry_price : Rat
  quantity : Rat
  leverage : Int
  stop_loss : Rat
  take_profit : Rat
  rr_ratio : Rat
  signal_confidence : Option Rat
  timeframe : Option String
  entry_time : Int
  current_price : Option Rat
  unrealized_pnl : Option Rat
  unrealized_pnl_percentage : Option Rat
deriving DecidableEq

/-- The `trade_data` payload cached under `trade:{id}` by `create_trade`
and refreshed by `update_position`. -/
structure CachedTrade where
  trade_id : String
  symbol : String
  side : Side
  entry_price : Rat
  quantity : Rat
  stop_loss : Rat
  take_profit : Rat
  rr_ratio : Rat
  entry_time : TimeVal
  status : String
  current_price : Option Rat
  unrealized_pnl : Option Rat
  unrealized_pnl_pct : Option Rat
deriving DecidableEq

/-- Lookup in an association list (first binding wins, like a unique key). -/
def alget {α : Type} (k : String) : List (String × α) → Option α
  | [] => none
  | (k1, v) :: rest => if k1 = k then some v else alget k rest

/-- Keyed UPDATE: rewrite the (unique) binding for `k`, if present. -/
def alupdate {α : Type} (k : String) (f : α → α) :
    List (String × α) → List (String × α)
  | [] => []
  | (k1, v) :: rest =>
    if k1 = k then (k1, f v) :: rest else (k1, v) :: alupdate k f rest

/-- Keyed DELETE. -/
def alerase {α : Type} (k : String) (l : List (String × α)) :
    List (String × α) :=
  l.filter (fun p => p.1 ≠ k)

/-- Combined state of the DurableStore (both tables) and the CacheStore. -/
structure LedgerState where
  trades : List (String × TradeRow)
  positions : List (String × PositionRow)
  cache : List (String × CachedTrade)
deriving DecidableEq

/-- The fields of a trade dict that `update_position`/`close_trade` read,
whether it came from the cache or from a trades row. -/
structure TradeView where
  symbol : String
  side : Side
  entry_price : Rat
  quantity : Rat
  stop_loss : Rat
  entry_time : TimeVal
  isClosed : Bool
deriving DecidableEq

def cachedToView (c : CachedTrade) : TradeView :=
  { symbol := c.symbol
    side := c.side
    entry_price := c.entry_price
    quantity := c.quantity
    stop_loss := c.stop_loss
    entry_time := c.entry_time
    isClosed := !(c.status == "OPEN") }

def rowToView (r : TradeRow) : TradeView :=
  { symbol := r.symbol
    side := r.side
    entry_price := r.entry_price
    quantity := r.quantity
    stop_loss := r.stop_loss
    entry_time := .dt r.entry_time
    isClosed := r.exit_time.isSome }

/-- Embeds `TradeHistoryManager.get_trade`: Redis first when `fromCache`, falling
back to `SELECT * FROM trades WHERE trade_id = %s`. -/
def get_trade (s : LedgerState) (id : String) (fromCache : Bool) :
    Option TradeView :=
  if fromCache then
    match alget id s.cache with
    | some c => some (cachedToView c)
    | none => (alget id s.trades).map rowToView
  else (alget id s.trades).map rowToView

/-- Outcome of one `RedisManager.set` call: success, operational failure
(logged, returns `False`), or the not-connected `RedisError` raise. -/
inductive CacheSetResult where
  | ok
  | errFalse
  | raiseErr
deriving DecidableEq

/-- Injected collaborator outcomes for one `create_trade` call. -/
structure CreateOutcome where
  pgTrades : Bool
  pgPositions : Bool
  cacheSet : CacheSetResult
deriving DecidableEq

/-- Arguments of `create_trade`, with the generated uuid and `datetime.now()`
made explicit. -/
structure CreateArgs where
  trade_id : String
  symbol : String
  side : Side
  entry_price : Rat
  quantity : Rat
  stop_loss : Rat
  take_profit : Rat
  rr_ratio : Rat
  leverage : Int
  signal_confidence : Option Rat
  signal_type : Option String
  timeframe : Option String
  notes : Option String
  entry_time : Int
deriving DecidableEq

/-- Embeds `risk_amount = abs(entry_price - stop_loss) * quantity`. -/
def riskAmount (entry stop qty : Rat) : Rat := |entry - stop| * qty

def newTradeRow (a : CreateArgs) : TradeRow :=
  { symbol := a.symbol
    side := a.side
    entry_price := a.entry_price
    quantity := a.quantity
    leverage := a.leverage
    entry_time := a.entry_time
    stop_loss := a.stop_loss
    take_profit := a.take_profit
    rr_ratio := a.rr_ratio
    risk_amount := riskAmount a.entry_price a.stop_loss a.quantity
    signal_confidence := a.signal_confidence
    signal_type := a.signal_type
    timeframe := a.timeframe
    notes := a.notes
    exit_price := none
    exit_time := none
    exit_reason := none
    duration_seconds := none
    pnl := none
    pnl_percentage := none
    fees := none
    net_pnl := none
    actual_rr := none }

def newPositionRow (a : CreateArgs) : PositionRow :=
  { symbol := a.symbol
    side := a.side
    entry_price := a.entry_price
    quantity := a.quantity
    leverage := a.leverage
    stop_loss := a.stop_loss
    take_profit := a.take_profit
    rr_ratio := a.rr_ratio
    signal_confidence := a.signal_confidence
    timeframe := a.timeframe
    entry_time := a.entry_time
    current_price := none
    unrealized_pnl := none
    unrealized_pnl_percentage := none }

def newCachedTrade (a : CreateArgs) : CachedTrade :=
  { trade_id := a.trade_id
    symbol := a.symbol
    side := a.side
    entry_price := a.entry_price
    quantity := a.quantity
    stop_loss := a.stop_loss
    take_profit := a.take_profit
    rr_ratio := a.rr_ratio
    entry_time := .isoStr a.entry_time
    status := "OPEN"
    current_price := none
    unrealized_pnl := none
    unrealized_pnl_pct := none }

/-- Embeds `TradeHistoryManager.create_trade`: INSERT into `trades`, INSERT into
`positions`, then `redis.set`; any exception is wrapped into the generic
`TradeHistoryError` ("Trade oluşturulamadı").  A failed INSERT leaves its
own statement rolled back, but the first INSERT is already committed when
the second one fails. -/
def create_trade (s : LedgerState) (a : CreateArgs) (o : CreateOutcome) :
    Except LedgerErr String × LedgerState :=
  if o.pgTrades = false then (.error .opFailed, s)
  else
    let s1 : LedgerState :=
      { s with trades := (a.trade_id, newTradeRow a) :: s.trades }
    if o.pgPositions = false then (.error .opFailed, s1)
    else
      let s2 : LedgerState :=
        { s1 with positions := (a.trade_id, newPositionRow a) :: s1.positions }
      match o.cacheSet with
      | .raiseErr => (.error .opFailed, s2)
      | .errFalse => (.ok a.trade_id, s2)
      | .ok =>
        (.ok a.trade_id,
         { s2 with cache := (a.trade_id, newCachedTrade a) :: s2.cache })

/-- Embeds `datetime.fromisoformat(trade['entry_time'])`: succeeds on the cached
iso string, raises `TypeError` (wrapped into the generic error) on a
`datetime` coming from a PostgreSQL row. -/
def fromisoformat : TimeVal → Except LedgerErr Int
  | .isoStr t => .ok t
  | .dt _ => .error .opFailed

/-- Realized/unrealized P&L: LONG gains when price rises, SHORT when it
falls. -/
def tradePnl (side : Side) (entry price qty : Rat) : Rat :=
  match side with
  | .LONG => (price - entry) * qty
  | .SHORT => (entry - price) * qty

/-- Embeds `(pnl / (entry_price * quantity)) * 100`, performed unguarded in the
source: a zero entry notional raises `ZeroDivisionError`, which the
operation's generic handler wraps. -/
def pnlPercentage (pnl entry qty : Rat) : Except LedgerErr Rat :=
  if entry * qty = 0 then .error .opFailed
  else .ok (pnl / (entry * qty) * 100)

/-- Embeds `actual_rr = pnl / risk if risk > 0 else 0`. -/
def actualRR (pnl risk : Rat) : Rat := if risk > 0 then pnl / risk else 0

/-- The result dict returned by `close_trade`. -/
structure CloseResult where
  trade_id : String
  symbol : String
  side : Side
  entry_price : Rat
  exit_price : Rat
  pnl : Rat
  pnl_percentage : Rat
  net_pnl : Rat
  actual_rr : Rat
  duration_seconds : Int
  exit_reason : String
deriving DecidableEq

/-- Embeds `TradeHistoryManager.close_trade` with reliable stores: read-through
lookup, duration/P&L computation, terminal UPDATE of the trades row,
DELETE of the position row and of the cache entry.  Note the source never
checks the looked-up trade's status. -/
def close_trade (s : LedgerState) (id : String) (now : Int) (exitPrice : Rat)
    (reason : String) (fees : Rat) :
    Except LedgerErr CloseResult × LedgerState :=
  match get_trade s id true with
  | none => (.error .notFound, s)
  | some td =>
    match fromisoformat td.entry_time with
    | .error e => (.error e, s)
    | .ok et =>
      let duration := now - et
      let pnl := tradePnl td.side td.entry_price exitPrice td.quantity
      match pnlPercentage pnl td.entry_price td.quantity with
      | .error e => (.error e, s)
      | .ok pct =>
        let netPnl := pnl - fees
        let risk := riskAmount td.entry_price td.stop_loss td.quantity
        let rr := actualRR pnl risk
        let s1 : LedgerState :=
          { s with
            trades := alupdate id (fun r =>
              { r with
                exit_price := some exitPrice
                exit_time := some now
                exit_reason := some reason
                duration_seconds := some duration
                pnl := some pnl
                pnl_percentage := some pct
                fees := some fees
                net_pnl := some netPnl
                actual_rr := some rr }) s.trades
            positions := alerase id s.positions
            cache := alerase id s.cache }
        (.ok
          { trade_id := id
            symbol := td.symbol
            side := td.side
            entry_price := td.entry_price
            exit_price := exitPrice
            pnl := pnl
            pnl_percentage := pct
            net_pnl := netPnl
            actual_rr := rr
            duration_seconds := duration
            exit_reason := reason }, s1)

/-- Embeds `TradeHistoryManager.update_position` with reliable stores: read-through
lookup, unrealized P&L recomputation, UPDATE of the position row, refresh
of the cache entry when one is present. -/
def update_position (s : LedgerState) (id : String) (currentPrice : Rat) :
    Except LedgerErr Unit × LedgerState :=
  match get_trade s id true with
  | none => (.error .notFound, s)
  | some td =>
    let upnl := tradePnl td.side td.entry_price currentPrice td.quantity
    match pnlPercentage upnl td.entry_price td.quantity with
    | .error e => (.error e, s)
    | .ok pct =>
      let s1 : LedgerState :=
        { s with
          positions := alupdate id (fun p =>
            { p with
              current_price := some currentPrice
              unrealized_pnl := some upnl
              unrealized_pnl_percentage := some pct }) s.positions }
      match alget id s1.cache with
      | some c =>
        (.ok (),
         { s1 with
           cache := alupdate id (fun _ =>
             { c with
               current_price := some currentPrice
               unrealized_pnl := some upnl
               unrealized_pnl_pct := some pct }) s1.cache })
      | none => (.ok (), s1)

deriving instance DecidableEq for Except

theorem alget_erase {α : Type} (k : String) (l : List (String × α)) :
    alget k (alerase k l) = none := by
  induction l with
  | nil => rfl
  | cons x rest ih =>
    obtain ⟨k1, v⟩ := x
    by_cases h : k1 = k
    · simpa [alerase, h] using ih
    · simpa [alerase, alget, h] using ih

theorem alget_update {α : Type} (k : String) (f : α → α) (l : List (String × α)) :
    alget k (alupdate k f l) = (alget k l).map f := by
  induction l with
  | nil => rfl
  | cons x rest ih =>
    obtain ⟨k1, v⟩ := x
    by_cases h : k1 = k
    · simp [alupdate, alget, h]
    · simpa [alupdate, alget, h] using ih

/-- Shared concrete trade used by the ledger examples: the LONG
50000-entry / 49000-stop / qty 0.1 trade of the design examples, with id
`t1` opened at time 0. -/
def caEx : CreateArgs :=
  { trade_id := "t1"
    symbol := "BTCUSDT"
    side := .LONG
    entry_price := 50000
    quantity := 1 / 10
    stop_loss := 49000
    take_profit := 52000
    rr_ratio := 2
    leverage := 1
    signal_confidence := none
    signal_type := none
    timeframe := none
    notes := none
    entry_time := 0 }

/-- Ledger state holding exactly the trade `caEx`, created with every
collaborator call succeeding. -/
def ledgerEx : LedgerState :=
  (create_trade (⟨[], [], []⟩ : LedgerState) caEx
    (⟨true, true, .ok⟩ : CreateOutcome)).2

/-- C2 (amended): CreateTrade returns the trade id exactly when both durable
INSERTs succeed and the cache set does not raise.  If the trades INSERT
fails, nothing is written (no id, no rows, no cache entry); if the positions
INSERT fails, no id is returned and no cache write happens, but the
already-committed trades row persists; a cache set that merely reports
failure (returns False) never fails the operation; a cache set that raises
(client not connected) makes the whole operation report failure even though
both durable writes succeeded. -/
theorem create_trade_durability (s : LedgerState) (a : CreateArgs)
    (o : CreateOutcome) :
    (o.pgTrades = false → create_trade s a o = (.error .opFailed, s)) ∧
    (o.pgTrades = true → o.pgPositions = false →
      (create_trade s a o).1 = .error .opFailed ∧
      (create_trade s a o).2.cache = s.cache ∧
      alget a.trade_id (create_trade s a o).2.trades = some (newTradeRow a)) ∧
    (o.pgTrades = true → o.pgPositions = true → o.cacheSet ≠ .raiseErr →
      (create_trade s a o).1 = .ok a.trade_id) ∧
    (o.pgTrades = true → o.pgPositions = true → o.cacheSet = .raiseErr →
      (create_trade s a o).1 = .error .opFailed ∧
      alget a.trade_id (create_trade s a o).2.trades = some (newTradeRow a) ∧
      alget a.trade_id (create_trade s a o).2.positions =
        some (newPositionRow a) ∧
      (create_trade s a o).2.cache = s.cache) := by
  obtain ⟨pt, pp, cs⟩ := o
  refine ⟨?_, ?_, ?_, ?_⟩
  · intro h
    subst h
    rfl
  · intro h1 h2
    subst h1; subst h2
    refine ⟨rfl, rfl, ?_⟩
    simp [create_trade, alget]
  · intro h1 h2 h3
    subst h1; subst h2
    cases cs with
    | ok => rfl
    | errFalse => rfl
    | raiseErr => exact absurd rfl h3
  · intro h1 h2 h3
    subst h1; subst h2; subst h3
    exact ⟨rfl, by simp [create_trade, alget], by simp [create_trade, alget],
      rfl⟩

/-- C2 counterexample to the claim as stated: with both durable INSERTs
succeeding and the cache set raising (Redis client not connected),
`create_trade` reports failure — even though the trade now durably exists
in both tables — so a cache failure can make the operation report failure
although the durable write succeeded. -/
theorem create_trade_cache_raise_fails :
    (create_trade (⟨[], [], []⟩ : LedgerState) caEx
      (⟨true, true, .raiseErr⟩ : CreateOutcome)).1 =
      .error .opFailed ∧
    alget "t1" (create_trade (⟨[], [], []⟩ : LedgerState)
      caEx (⟨true, true, .raiseErr⟩ : CreateOutcome)).2.trades = some (newTradeRow caEx) ∧
    alget "t1" (create_trade (⟨[], [], []⟩ : LedgerState)
      caEx (⟨true, true, .raiseErr⟩ : CreateOutcome)).2.positions = some (newPositionRow caEx) :=
  ⟨rfl, rfl, rfl⟩

/-- C2 witness: with both durable writes succeeding and the cache set
failing softly (returning False), the amended claim yields the trade id. -/
theorem create_trade_durability_witness :
    (create_trade (⟨[], [], []⟩ : LedgerState) caEx
      (⟨true, true, .errFalse⟩ : CreateOutcome)).1 =
      .ok caEx.trade_id :=
  (create_trade_durability (⟨[], [], []⟩ : LedgerState)
    caEx (⟨true, true, .errFalse⟩ : CreateOutcome)).2.2.1 rfl rfl (by decide)

/-- A looked-up trade whose `entry_time` is a `datetime` makes
`close_trade` fail with the wrapped `TypeError` from
`datetime.fromisoformat`, before any write. -/
theorem close_trade_dt_fails (s : LedgerState) (id : String) (now : Int)
    (px : Rat) (reason : String) (fees : Rat) (v : TradeView) (t : Int)
    (hg : get_trade s id true = some v) (ht : v.entry_time = .dt t) :
    close_trade s id now px reason fees = (.error .opFailed, s) := by
  simp [close_trade, hg, ht, fromisoformat]

theorem alget_mem {α : Type} (k : String) (v : α) :
    ∀ l : List (String × α), alget k l = some v → (k, v) ∈ l := by
  intro l
  induction l with
  | nil => intro h; simp [alget] at h
  | cons x rest ih =>
    obtain ⟨k1, v1⟩ := x
    intro h
    rw [alget] at h
    by_cases hk : k1 = k
    · rw [if_pos hk] at h
      injection h with h
      subst hk; subst h
      simp
    · rw [if_neg hk] at h
      exact List.mem_cons_of_mem _ (ih h)

/-- Well-formedness of the cache: every cached projection was written by
`create_trade`/`update_position`, so its `entry_time` is an iso string and
its status is `OPEN`.  (No code path ever caches a terminal record.) -/
def cacheWF (s : LedgerState) : Prop :=
  ∀ p ∈ s.cache, p.2.entry_time.isIso = true ∧ p.2.status = "OPEN"

instance (s : LedgerState) : Decidable (cacheWF s) := by
  unfold cacheWF; infer_instance

/-- C3 (amended): a successful CloseTrade resolves its id through the cache
to an OPEN projection, and afterwards the cache no longer holds an entry
for that id; but a second CloseTrade on the same id fails with the generic
wrapped close error (the durable row's `entry_time` comes back as a
`datetime` and `datetime.fromisoformat` raises `TypeError`), not with the
TradeNotFound condition — `close_trade` never checks the trade's status. -/
theorem close_trade_lifecycle (s : LedgerState) (id : String)
    (now now2 : Int) (px px2 fees fees2 : Rat) (reason reason2 : String)
    (hwf : cacheWF s)
    (hrow : (alget id s.trades).isSome = true)
    (hok : (close_trade s id now px reason fees).1.isOk = true) :
    (∃ c, alget id s.cache = some c ∧ c.status = "OPEN") ∧
    alget id (close_trade s id now px reason fees).2.cache = none ∧
    (close_trade (close_trade s id now px reason fees).2 id now2 px2 reason2
      fees2).1 = .error .opFailed ∧
    (close_trade (close_trade s id now px reason fees).2 id now2 px2 reason2
      fees2).1 ≠ .error .notFound := by
  rcases hg : get_trade s id true with _ | td
  · exfalso
    simp [close_trade, hg, Except.isOk, Except.toBool] at hok
  rcases htv : td.entry_time with t | t
  swap
  · exfalso
    simp [close_trade, hg, htv, fromisoformat, Except.isOk, Except.toBool] at hok
  rcases hp : pnlPercentage (tradePnl td.side td.entry_price px td.quantity)
      td.entry_price td.quantity with e | pct
  · exfalso
    simp [close_trade, hg, htv, fromisoformat, hp, Except.isOk,
      Except.toBool] at hok
  have hcache2 : (close_trade s id now px reason fees).2.cache =
      alerase id s.cache := by
    simp [close_trade, hg, htv, fromisoformat, hp]
  have htrades2 : ∃ f, (close_trade s id now px reason fees).2.trades =
      alupdate id f s.trades := by
    refine ⟨fun r =>
      { r with
        exit_price := some px
        exit_time := some now
        exit_reason := some reason
        duration_seconds := some (now - t)
        pnl := some (tradePnl td.side td.entry_price px td.quantity)
        pnl_percentage := some pct
        fees := some fees
        net_pnl := some (tradePnl td.side td.entry_price px td.quantity - fees)
        actual_rr := some (actualRR
          (tradePnl td.side td.entry_price px td.quantity)
          (riskAmount td.entry_price td.stop_loss td.quantity)) }, ?_⟩
    simp [close_trade, hg, htv, fromisoformat, hp]
  refine ⟨?_, ?_, ?_⟩
  · -- success came through the cache, and the projection is OPEN
    rcases hc : alget id s.cache with _ | c
    · exfalso
      simp only [get_trade, hc, if_true] at hg
      rcases hrow2 : alget id s.trades with _ | row
      · rw [hrow2] at hg
        simp at hg
      · rw [hrow2] at hg
        simp only [Option.map_some', Option.some.injEq] at hg
        rw [← hg] at htv
        simp [rowToView] at htv
    · have hmem := alget_mem id c s.cache hc
      have := hwf (id, c) hmem
      exact ⟨c, rfl, this.2⟩
  · rw [hcache2]
    exact alget_erase id s.cache
  · obtain ⟨f, hf⟩ := htrades2
    obtain ⟨row, hroweq⟩ := Option.isSome_iff_exists.mp hrow
    have hget2 : get_trade (close_trade s id now px reason fees).2 id true =
        some (rowToView (f row)) := by
      simp [get_trade, hcache2, alget_erase, hf, alget_update, hroweq]
    have hfail := close_trade_dt_fails (close_trade s id now px reason fees).2
      id now2 px2 reason2 fees2 (rowToView (f row)) (f row).entry_time hget2
      rfl
    rw [hfail]
    exact ⟨rfl, by simp⟩

/-- The successful first close of the example trade: evaluation helper. -/
theorem closeExOk :
    (close_trade ledgerEx "t1" 100 52000 "TP_HIT" 5).1.isOk = true := by
  have hknz : ¬((50000 : Rat) * (1 / 10) = 0) := by norm_num
  simp [close_trade, get_trade, alget, ledgerEx, create_trade, caEx,
    newCachedTrade, cachedToView, fromisoformat, pnlPercentage, tradePnl,
    Except.isOk, Except.toBool, hknz]

/-- C3 counterexample to the claim as stated: after the example trade is
successfully closed (which empties its cache entry), a second `close_trade`
on the same id fails — but with the generic wrapped close error caused by
re-parsing the durable row's `entry_time`, not with the
TradeNotFound/invalid-state condition the claim names. -/
theorem second_close_generic_error :
    (close_trade ledgerEx "t1" 100 52000 "TP_HIT" 5).1.isOk = true ∧
    alget "t1" (close_trade ledgerEx "t1" 100 52000 "TP_HIT" 5).2.cache =
      none ∧
    (close_trade (close_trade ledgerEx "t1" 100 52000 "TP_HIT" 5).2 "t1" 200
      52000 "MANUAL" 0).1 = .error .opFailed ∧
    (close_trade (close_trade ledgerEx "t1" 100 52000 "TP_HIT" 5).2 "t1" 200
      52000 "MANUAL" 0).1 ≠ .error .notFound := by
  have hknz : ¬((50000 : Rat) * (1 / 10) = 0) := by norm_num
  refine ⟨closeExOk, ?_, ?_, ?_⟩ <;>
    simp [close_trade, get_trade, alget, ledgerEx, create_trade, caEx,
      newCachedTrade, cachedToView, rowToView, fromisoformat, pnlPercentage,
      tradePnl, alerase, alupdate, Except.isOk, Except.toBool, hknz]

/-- C3 witness: the amended claim applied to the concrete ledger holding the
example trade. -/
theorem close_trade_lifecycle_witness :
    cacheWF ledgerEx ∧
    (alget "t1" ledgerEx.trades).isSome = true ∧
    ((∃ c, alget "t1" ledgerEx.cache = some c ∧ c.status = "OPEN") ∧
    alget "t1" (close_trade ledgerEx "t1" 100 52000 "TP_HIT" 5).2.cache =
      none ∧
    (close_trade (close_trade ledgerEx "t1" 100 52000 "TP_HIT" 5).2 "t1" 200
      52000 "MANUAL" 0).1 = .error .opFailed ∧
    (close_trade (close_trade ledgerEx "t1" 100 52000 "TP_HIT" 5).2 "t1" 200
      52000 "MANUAL" 0).1 ≠ .error .notFound) :=
  ⟨by decide, by decide,
   close_trade_lifecycle ledgerEx "t1" 100 200 52000 52000 5 0 "TP_HIT"
     "MANUAL" (by decide) (by decide) closeExOk⟩

/-- The result values `close_trade` produces for the example LONG trade
(entry 50000, exit 52000, qty 0.1, fees 5, stop 49000) closed at time 100:
pnl 200, pnl percentage 4, net 195, actual RR 2. -/
def closeResEx : CloseResult :=
  { trade_id := "t1"
    symbol := "BTCUSDT"
    side := .LONG
    entry_price := 50000
    exit_price := 52000
    pnl := 200
    pnl_percentage := 4
    net_pnl := 195
    actual_rr := 2
    duration_seconds := 100
    exit_reason := "TP_HIT" }

/-- Evaluation helper: the example close returns exactly `closeResEx`. -/
theorem closeEx_result :
    (close_trade ledgerEx "t1" 100 52000 "TP_HIT" 5).1 = .ok closeResEx := by
  have hknz : ¬((50000 : Rat) * (1 / 10) = 0) := by norm_num
  simp [close_trade, get_trade, alget, ledgerEx, create_trade, caEx,
    newCachedTrade, cachedToView, fromisoformat, pnlPercentage, tradePnl,
    actualRR, riskAmount, closeResEx, hknz]
  norm_num

/-- Evaluation helper: the example trade's view has nonnegative quantity. -/
theorem tdEx_quantity_nonneg :
    0 ≤ (cachedToView (newCachedTrade caEx)).quantity := by
  norm_num [cachedToView, newCachedTrade, caEx]

/-- C4: for every trade closed successfully, the realized figures follow the
source formulas — pnl is (exit − entry)·qty for LONG and (entry − exit)·qty
for SHORT, net pnl is pnl − fees, and the realized risk/reward is
pnl / risk with risk = |entry − stop|·qty, defined as 0 when the risk
amount is 0; in particular the example LONG trade (entry 50000, exit 52000,
qty 0.1, fees 5, stop 49000) yields pnl 200, net 195, risk 100 and RR 2. -/
theorem close_trade_pnl_formulas (s : LedgerState) (id : String) (now : Int)
    (exitp fees : Rat) (reason : String) (td : TradeView) (res : CloseResult)
    (hget : get_trade s id true = some td)
    (hq : 0 ≤ td.quantity)
    (hok : (close_trade s id now exitp reason fees).1 = .ok res) :
    (res.pnl = match td.side with
      | .LONG => (exitp - td.entry_price) * td.quantity
      | .SHORT => (td.entry_price - exitp) * td.quantity) ∧
    res.net_pnl = res.pnl - fees ∧
    (riskAmount td.entry_price td.stop_loss td.quantity = 0 →
      res.actual_rr = 0) ∧
    (riskAmount td.entry_price td.stop_loss td.quantity ≠ 0 →
      res.actual_rr =
        res.pnl / riskAmount td.entry_price td.stop_loss td.quantity) ∧
    riskAmount 50000 49000 (1 / 10) = 100 ∧
    (close_trade ledgerEx "t1" 100 52000 "TP_HIT" 5).1 = .ok closeResEx := by
  rcases htv : td.entry_time with t | t
  swap
  · exfalso
    simp [close_trade, hget, htv, fromisoformat] at hok
  rcases hp : pnlPercentage (tradePnl td.side td.entry_price exitp td.quantity)
      td.entry_price td.quantity with e | pct
  · exfalso
    simp [close_trade, hget, htv, fromisoformat, hp] at hok
  have hres : res =
      { trade_id := id
        symbol := td.symbol
        side := td.side
        entry_price := td.entry_price
        exit_price := exitp
        pnl := tradePnl td.side td.entry_price exitp td.quantity
        pnl_percentage := pct
        net_pnl := tradePnl td.side td.entry_price exitp td.quantity - fees
        actual_rr := actualRR (tradePnl td.side td.entry_price exitp td.quantity)
          (riskAmount td.entry_price td.stop_loss td.quantity)
        duration_seconds := now - t
        exit_reason := reason } := by
    simp [close_trade, hget, htv, fromisoformat, hp] at hok
    exact hok.symm
  subst hres
  have hrisknn : 0 ≤ riskAmount td.entry_price td.stop_loss td.quantity :=
    mul_nonneg (abs_nonneg _) hq
  refine ⟨?_, rfl, ?_, ?_, ?_, closeEx_result⟩
  · cases td.side <;> simp [tradePnl]
  · intro h
    simp [actualRR, h]
  · intro h
    have hpos : 0 < riskAmount td.entry_price td.stop_loss td.quantity :=
      lt_of_le_of_ne hrisknn (Ne.symm h)
    simp [actualRR, hpos]
  · norm_num [riskAmount]

/-- C4 witness: the general part applied to the example ledger and the
already-evaluated example result. -/
theorem close_trade_pnl_formulas_witness :
    get_trade ledgerEx "t1" true = some (cachedToView (newCachedTrade caEx)) ∧
    ((closeResEx.pnl = match (cachedToView (newCachedTrade caEx)).side with
      | .LONG => (52000 - (cachedToView (newCachedTrade caEx)).entry_price) *
          (cachedToView (newCachedTrade caEx)).quantity
      | .SHORT => ((cachedToView (newCachedTrade caEx)).entry_price - 52000) *
          (cachedToView (newCachedTrade caEx)).quantity) ∧
    closeResEx.net_pnl = closeResEx.pnl - 5 ∧
    (riskAmount (cachedToView (newCachedTrade caEx)).entry_price
        (cachedToView (newCachedTrade caEx)).stop_loss
        (cachedToView (newCachedTrade caEx)).quantity = 0 →
      closeResEx.actual_rr = 0) ∧
    (riskAmount (cachedToView (newCachedTrade caEx)).entry_price
        (cachedToView (newCachedTrade caEx)).stop_loss
        (cachedToView (newCachedTrade caEx)).quantity ≠ 0 →
      closeResEx.actual_rr = closeResEx.pnl /
        riskAmount (cachedToView (newCachedTrade caEx)).entry_price
          (cachedToView (newCachedTrade caEx)).stop_loss
          (cachedToView (newCachedTrade caEx)).quantity) ∧
    riskAmount 50000 49000 (1 / 10) = 100 ∧
    (close_trade ledgerEx "t1" 100 52000 "TP_HIT" 5).1 = .ok closeResEx) :=
  ⟨rfl, close_trade_pnl_formulas ledgerEx "t1" 100 52000 5 "TP_HIT"
    (cachedToView (newCachedTrade caEx)) closeResEx rfl tdEx_quantity_nonneg
    closeEx_result⟩

/-- The example trade with zero quantity (zero entry notional), id `t0`. -/
def caZeroEx : CreateArgs :=
  { caEx with
    trade_id := "t0"
    quantity := 0 }

/-- Ledger state holding exactly the zero-notional trade `caZeroEx`. -/
def ledgerZeroEx : LedgerState :=
  (create_trade (⟨[], [], []⟩ : LedgerState) caZeroEx
    (⟨true, true, .ok⟩ : CreateOutcome)).2

/-- C10: the unguarded P&L-percentage division of `update_position` and
`close_trade` is well-defined exactly when the entry notional
`entry_price · quantity` is nonzero — then the ZeroDivisionError branch is
unreachable and the computation equals pnl / (entry·qty) · 100; a trade
with zero entry notional makes both operations fail (the wrapped
ZeroDivisionError). -/
theorem pnl_percentage_guard (s : LedgerState) (id : String) (td : TradeView)
    (cp : Rat) (now : Int) (exitp fees : Rat) (reason : String)
    (hget : get_trade s id true = some td) :
    (td.entry_price * td.quantity ≠ 0 →
      pnlPercentage (tradePnl td.side td.entry_price cp td.quantity)
          td.entry_price td.quantity =
        .ok (tradePnl td.side td.entry_price cp td.quantity /
          (td.entry_price * td.quantity) * 100)) ∧
    (td.entry_price * td.quantity = 0 →
      (update_position s id cp).1 = .error .opFailed ∧
      (close_trade s id now exitp reason fees).1 = .error .opFailed) := by
  constructor
  · intro h
    simp [pnlPercentage, h]
  · intro h
    constructor
    · simp [update_position, hget, pnlPercentage, h]
    · rcases htv : td.entry_time with t | t
      · simp [close_trade, hget, htv, fromisoformat, pnlPercentage, h]
      · simp [close_trade, hget, htv, fromisoformat]

/-- C10 witness: the guard applied to the zero-notional trade `t0`; its
entry notional is 0, and both operations fail on it. -/
theorem pnl_percentage_guard_witness :
    get_trade ledgerZeroEx "t0" true =
      some (cachedToView (newCachedTrade caZeroEx)) ∧
    (((cachedToView (newCachedTrade caZeroEx)).entry_price *
        (cachedToView (newCachedTrade caZeroEx)).quantity ≠ 0 →
      pnlPercentage
          (tradePnl (cachedToView (newCachedTrade caZeroEx)).side
            (cachedToView (newCachedTrade caZeroEx)).entry_price 51000
            (cachedToView (newCachedTrade caZeroEx)).quantity)
          (cachedToView (newCachedTrade caZeroEx)).entry_price
          (cachedToView (newCachedTrade caZeroEx)).quantity =
        .ok (tradePnl (cachedToView (newCachedTrade caZeroEx)).side
            (cachedToView (newCachedTrade caZeroEx)).entry_price 51000
            (cachedToView (newCachedTrade caZeroEx)).quantity /
          ((cachedToView (newCachedTrade caZeroEx)).entry_price *
            (cachedToView (newCachedTrade caZeroEx)).quantity) * 100)) ∧
    ((cachedToView (newCachedTrade caZeroEx)).entry_price *
        (cachedToView (newCachedTrade caZeroEx)).quantity = 0 →
      (update_position ledgerZeroEx "t0" 51000).1 = .error .opFailed ∧
      (close_trade ledgerZeroEx "t0" 100 51000 "MANUAL" 0).1 =
        .error .opFailed)) :=
  ⟨rfl, pnl_percentage_guard ledgerZeroEx "t0"
    (cachedToView (newCachedTrade caZeroEx)) 51000 100 51000 0 "MANUAL" rfl⟩

/-! ### Statistics (get_stats and helpers) -/

/-- The scan of `_calculate_max_drawdown`: fold state is
`(cumulative, peak, max_dd)`, all starting at 0. -/
def ddStep (st : Rat × Rat × Rat) (pnl : Rat) : Rat × Rat × Rat :=
  let c := st.1 + pnl
  let p := if c > st.2.1 then c else st.2.1
  (c, p, max st.2.2 (p - c))

/-- Embeds `TradeHistoryManager._calculate_max_drawdown` applied to the net-P&L
column of the filtered CLOSED trades in exit-time-ascending order (the
`ORDER BY exit_time ASC` result set); returns 0 for an empty result. -/
def calcMaxDrawdown (pnls : List Rat) : Rat :=
  (pnls.foldl ddStep (0, 0, 0)).2.2

/-- Specification-style cumulative P&L list: `cumulative += net_pnl` at each
step. -/
def cumList (c : Rat) : List Rat → List Rat
  | [] => []
  | x :: rest => (c + x) :: cumList (c + x) rest

/-- Specification-style running-peak list: `peak = max(peak, cumulative)` at
each step. -/
def peakList (p : Rat) : List Rat → List Rat
  | [] => []
  | c :: rest => max p c :: peakList (max p c) rest

/-- The drawdown described by the specification: per-step drawdowns
`peak − cumulative` over the cumulative and peak lists, maximum observed
(and 0 when there is no step). -/
def maxDrawdownSpec (pnls : List Rat) : Rat :=
  (List.zipWith (fun p c => p - c) (peakList 0 (cumList 0 pnls))
    (cumList 0 pnls)).foldl max 0

/-- The scan of `_calculate_streaks`: fold state is
`(max_win_streak, max_loss_streak, current_win_streak, current_loss_streak)`;
a positive net P&L extends the win run, anything else (ties included)
extends the loss run. -/
def streakStep (st : Nat × Nat × Nat × Nat) (pnl : Rat) : Nat × Nat × Nat × Nat :=
  if 0 < pnl then
    let cw := st.2.2.1 + 1
    (max st.1 cw, st.2.1, cw, 0)
  else
    let cl := st.2.2.2 + 1
    (st.1, max st.2.1 cl, 0, cl)

/-- Embeds `TradeHistoryManager._calculate_streaks` on the chronological net-P&L
sequence. -/
def calcStreaks (pnls : List Rat) : Nat × Nat :=
  let st := pnls.foldl streakStep (0, 0, 0, 0)
  (st.1, st.2.1)

/-- SQL `MAX` over a non-empty column (0 for an empty one). -/
def listMax : List Rat → Rat
  | [] => 0
  | x :: rest => rest.foldl max x

/-- SQL `MIN` over a non-empty column (0 for an empty one). -/
def listMin : List Rat → Rat
  | [] => 0
  | x :: rest => rest.foldl min x

/-- The WHERE clause of `get_stats`: `exit_time IS NOT NULL`, the optional
days window on `entry_time`, the optional symbol filter. -/
def statsFilter (now : Int) (days : Option Int) (symbol : Option String)
    (r : TradeRow) : Bool :=
  r.exit_time.isSome &&
  (match days with
   | none => true
   | some d => decide (now - d * 86400 < r.entry_time)) &&
  (match symbol with
   | none => true
   | some sym => r.symbol == sym)

/-- The filtered set of CLOSED trades `get_stats` aggregates over. -/
def filteredClosed (s : LedgerState) (now : Int) (days : Option Int)
    (symbol : Option String) : List TradeRow :=
  (s.trades.map Prod.snd).filter (statsFilter now days symbol)

/-- Embeds `TradeHistoryManager._empty_stats`. -/
def empty_stats : List (String × Rat) :=
  [("total_trades", 0), ("winning_trades", 0), ("losing_trades", 0),
   ("win_rate", 0), ("total_pnl", 0), ("avg_pnl", 0),
   ("avg_pnl_percentage", 0), ("avg_actual_rr", 0), ("max_win", 0),
   ("min_loss", 0), ("profit_factor", 0), ("max_win_streak", 0),
   ("max_loss_streak", 0), ("max_drawdown", 0)]

/-- The net-P&L column of a row list. -/
def netPnls (rows : List TradeRow) : List Rat :=
  rows.map (fun r => r.net_pnl.getD 0)

/-- Exit-time-ascending comparison used for the `ORDER BY exit_time ASC`
result sets feeding the streak and drawdown scans. -/
def byExitTime (a b : TradeRow) : Bool :=
  a.exit_time.getD 0 ≤ b.exit_time.getD 0

/-- Embeds `TradeHistoryManager.get_stats` as a dictionary of numeric fields: the
empty filtered set short-circuits to `_empty_stats`; otherwise the SQL
aggregates, the win rate and profit factor with their zero guards, the
streak scan and the drawdown scan are all computed over the filtered set. -/
def get_stats (s : LedgerState) (now : Int) (days : Option Int)
    (symbol : Option String) : List (String × Rat) :=
  let rows := filteredClosed s now days symbol
  if rows.length = 0 then empty_stats
  else
    let n : Rat := (rows.length : Rat)
    let pnls := netPnls rows
    let wins := (pnls.filter (fun p => decide (0 < p))).length
    let losses := (pnls.filter (fun p => decide (p ≤ 0))).length
    let totalWins := (pnls.filter (fun p => decide (0 < p))).sum
    let totalLosses := |(pnls.filter (fun p => decide (p ≤ 0))).sum|
    let spnls := netPnls (rows.mergeSort byExitTime)
    let streaks := calcStreaks spnls
    [("total_trades", n),
     ("winning_trades", (wins : Rat)),
     ("losing_trades", (losses : Rat)),
     ("total_pnl", pnls.sum),
     ("avg_pnl", pnls.sum / n),
     ("avg_pnl_percentage",
       (rows.map (fun r => r.pnl_percentage.getD 0)).sum / n),
     ("avg_actual_rr", (rows.map (fun r => r.actual_rr.getD 0)).sum / n),
     ("max_win", listMax pnls),
     ("min_loss", listMin pnls),
     ("avg_duration_seconds",
       (rows.map (fun r => ((r.duration_seconds.getD 0 : Int) : Rat))).sum / n),
     ("win_rate", if 0 < rows.length then (wins : Rat) / n * 100 else 0),
     ("profit_factor", if 0 < totalLosses then totalWins / totalLosses else 0),
     ("max_win_streak", (streaks.1 : Rat)),
     ("max_loss_streak", (streaks.2 : Rat)),
     ("max_drawdown", calcMaxDrawdown spnls)]

theorem ite_gt_max (a b : Rat) : (if a < b then b else a) = max a b := by
  rcases le_or_lt b a with h | h
  · rw [if_neg (not_lt.mpr h), max_eq_left h]
  · rw [if_pos h, max_eq_right h.le]

theorem ddStep_eq (c p m x : Rat) :
    ddStep (c, p, m) x =
      (c + x, max p (c + x), max m (max p (c + x) - (c + x))) := by
  simp only [ddStep]
  rw [ite_gt_max]

theorem ddFold_eq (l : List Rat) : ∀ (c p m : Rat),
    (l.foldl ddStep (c, p, m)).2.2 =
      (List.zipWith (fun pk cu => pk - cu) (peakList p (cumList c l))
        (cumList c l)).foldl max m := by
  induction l with
  | nil => intro c p m; rfl
  | cons x rest ih =>
    intro c p m
    rw [List.foldl_cons, ddStep_eq, ih]
    simp only [cumList, peakList, List.zipWith_cons_cons, List.foldl_cons]

/-- C9: the imperative drawdown scan of `_calculate_max_drawdown` computes
exactly the specification's cumulative/peak/per-step-drawdown maximum, and
on the chronological net-P&L sequence [10, 20, -5, 15, -10] it yields 10. -/
theorem max_drawdown_scan (pnls : List Rat) :
    calcMaxDrawdown pnls = maxDrawdownSpec pnls ∧
    calcMaxDrawdown [10, 20, -5, 15, -10] = 10 := by
  constructor
  · rw [calcMaxDrawdown, maxDrawdownSpec, ddFold_eq]
  · norm_num [calcMaxDrawdown, ddStep]

/-- C8 (amended): on an empty filtered set `get_stats` returns
`_empty_stats` without failing and without division: all listed fields are
present and zero except the average hold duration — `_empty_stats` has no
`avg_duration_seconds` key, although the non-empty path produces it. -/
theorem get_stats_empty (s : LedgerState) (now : Int) (days : Option Int)
    (symbol : Option String) (h : filteredClosed s now days symbol = []) :
    get_stats s now days symbol = empty_stats ∧
    (∀ k ∈ ["total_trades", "winning_trades", "losing_trades", "win_rate",
      "total_pnl", "avg_pnl", "avg_pnl_percentage", "avg_actual_rr",
      "max_win", "min_loss", "profit_factor", "max_win_streak",
      "max_loss_streak", "max_drawdown"],
      alget k (get_stats s now days symbol) = some 0) ∧
    alget "avg_duration_seconds" (get_stats s now days symbol) = none := by
  have h1 : get_stats s now days symbol = empty_stats := by
    simp [get_stats, h]
  refine ⟨h1, ?_, ?_⟩
  · rw [h1]
    intro k hk
    fin_cases hk <;> rfl
  · rw [h1]
    rfl

/-- C8 counterexample to the claim as stated: on the empty ledger the
filtered set is empty and the returned snapshot has no
`avg_duration_seconds` field at all, while the claim says every field —
including the average hold duration — is present and zero. -/
theorem empty_stats_missing_avg_duration :
    filteredClosed (⟨[], [], []⟩ : LedgerState) 0 none none = [] ∧
    alget "avg_duration_seconds"
      (get_stats (⟨[], [], []⟩ : LedgerState) 0 none none) = none :=
  ⟨rfl, rfl⟩

/-- C8 witness: the amended claim applied to the empty ledger. -/
theorem get_stats_empty_witness :
    filteredClosed (⟨[], [], []⟩ : LedgerState) 0 none none = [] ∧
    (get_stats (⟨[], [], []⟩ : LedgerState) 0 none none = empty_stats ∧
    (∀ k ∈ ["total_trades", "winning_trades", "losing_trades", "win_rate",
      "total_pnl", "avg_pnl", "avg_pnl_percentage", "avg_actual_rr",
      "max_win", "min_loss", "profit_factor", "max_win_streak",
      "max_loss_streak", "max_drawdown"],
      alget k (get_stats (⟨[], [], []⟩ : LedgerState) 0 none none) = some 0) ∧
    alget "avg_duration_seconds"
      (get_stats (⟨[], [], []⟩ : LedgerState) 0 none none) = none) :=
  ⟨rfl, get_stats_empty (⟨[], [], []⟩ : LedgerState) 0 none none rfl⟩

end TradeBot
